import Mathlib

/-!
Verification of the compression-ladder search of `pdf-compressor`
(`src/web/src/lib/compress/engine.ts` and `rasterize.ts`).

The ladder-search drivers are pure over the outcome of each rung attempt:
one rung attempt either throws (the exception is caught by the driver) or
produces output bytes.  We model that outcome with an oracle
`attempt : Nat → Option (List Nat)` mapping a ladder index to the bytes
produced by that rung (`none` = the rung threw).  Byte buffers are
`List Nat`; sizes are lengths.  JavaScript's `Math.floor(targetMb * 1024 *
1024)` is `Int.floor` over `ℚ`, and the size ratio `originalSize /
targetSize` is exact rational division (with the division-by-zero case,
where JavaScript yields `Infinity`, made explicit).
-/

namespace PdfCompressor

/-- Shape of one entry of `COMPRESSION_LADDER` (engine.ts / types.ts). -/
structure CompressionStep where
  name : String
  maxDimension : Nat
  quality : ℚ
deriving DecidableEq

/-- Shape of one entry of `RASTER_LADDER` (rasterize.ts). -/
structure RasterStep where
  name : String
  scale : ℚ
  quality : ℚ
deriving DecidableEq

/-- The result record built by both drivers (types.ts `CompressionResult`). -/
structure CompressionResult where
  success : Bool
  outputBytes : Option (List Nat)
  originalSizeBytes : Nat
  finalSizeBytes : Nat
  targetReached : Bool
  stepUsed : String
  errorMessage : Option String
deriving DecidableEq

/-- Both drivers compute `targetBytes = Math.floor(targetMb * 1024 * 1024)`. -/
def targetBytesOf (targetMb : ℚ) : ℤ :=
  Int.floor (targetMb * 1024 * 1024)

namespace Engine

/-- engine.ts lines 16-23: the text-preserving ladder. -/
def COMPRESSION_LADDER : List CompressionStep :=
  [ ⟨"light", 2000, 85/100⟩,
    ⟨"moderate", 1600, 75/100⟩,
    ⟨"standard", 1200, 65/100⟩,
    ⟨"aggressive", 1000, 55/100⟩,
    ⟨"heavy", 800, 45/100⟩,
    ⟨"extreme", 600, 35/100⟩ ]

/-- engine.ts lines 36-45.  In JavaScript, when `targetSize = 0` the ratio
`originalSize / targetSize` is `Infinity` (the guard already handled
`originalSize ≤ targetSize`, so `originalSize > 0` there), every strict
`<` test fails and the function returns 5; that case is made explicit
because rational division by zero would not model it. -/
def estimateStartingStep (originalSize targetSize : ℤ) : Nat :=
  if originalSize ≤ targetSize then 0
  else if targetSize = 0 then 5
  else
    let ratioNeeded : ℚ := (originalSize : ℚ) / (targetSize : ℚ)
    if ratioNeeded < 3/2 then 0
    else if ratioNeeded < 2 then 1
    else if ratioNeeded < 3 then 2
    else if ratioNeeded < 4 then 3
    else if ratioNeeded < 5 then 4
    else 5

/-- Name of the ladder step at an index (the loop only reads `step.name`
for the result record). -/
def stepName (idx : Nat) : String :=
  ((COMPRESSION_LADDER.get? idx).map CompressionStep.name).getD ""

/-- The indices the `for` loop of engine.ts lines 221-259 ranges over:
`startIndex` up to the end of the ladder. -/
def ladderSegment (originalSize : Nat) (targetBytes : ℤ) : List Nat :=
  (List.range COMPRESSION_LADDER.length).drop
    (estimateStartingStep (originalSize : ℤ) targetBytes)

/-- engine.ts lines 221-272: the rung loop.  Per iteration: if the rung
threw, continue; otherwise update the best-so-far tracker when the output
is strictly smaller, then return early when the output meets the target;
after the loop, return the best-so-far with `targetReached = false`. -/
def compressLoop (attempt : Nat → Option (List Nat)) (targetBytes : ℤ)
    (originalSize : Nat) :
    List Nat → Nat → List Nat → String → CompressionResult
  | [], bestSize, bestBytes, bestStepName =>
      ⟨true, some bestBytes, originalSize, bestSize, false, bestStepName, none⟩
  | idx :: rest, bestSize, bestBytes, bestStepName =>
      match attempt idx with
      | none =>
          compressLoop attempt targetBytes originalSize rest
            bestSize bestBytes bestStepName
      | some outBytes =>
          let resultSize := outBytes.length
          let bestSizeNext := if resultSize < bestSize then resultSize else bestSize
          let bestBytesNext := if resultSize < bestSize then outBytes else bestBytes
          let bestStepNext := if resultSize < bestSize then stepName idx else bestStepName
          if (resultSize : ℤ) ≤ targetBytes then
            ⟨true, some outBytes, originalSize, resultSize, true, stepName idx, none⟩
          else
            compressLoop attempt targetBytes originalSize rest
              bestSizeNext bestBytesNext bestStepNext

/-- engine.ts lines 187-273: `compressPdf`. -/
def compressPdf (inputBytes : List Nat) (targetMb : ℚ)
    (attempt : Nat → Option (List Nat)) : CompressionResult :=
  if (inputBytes.length : ℤ) ≤ targetBytesOf targetMb then
    ⟨true, some inputBytes, inputBytes.length, inputBytes.length, true,
      "none (already under target)", none⟩
  else
    compressLoop attempt (targetBytesOf targetMb) inputBytes.length
      (ladderSegment inputBytes.length (targetBytesOf targetMb))
      inputBytes.length inputBytes "none"

end Engine

namespace Rasterize

/-- rasterize.ts lines 18-23: the rasterize ladder. -/
def RASTER_LADDER : List RasterStep :=
  [ ⟨"raster-light", 3/2, 82/100⟩,
    ⟨"raster-medium", 6/5, 68/100⟩,
    ⟨"raster-heavy", 1, 55/100⟩,
    ⟨"raster-extreme", 4/5, 45/100⟩ ]

/-- rasterize.ts lines 29-36; the `targetSize = 0` branch models the
JavaScript `Infinity` ratio as in the engine's estimator. -/
def estimateStartingStep (originalSize targetSize : ℤ) : Nat :=
  if originalSize ≤ targetSize then 0
  else if targetSize = 0 then 3
  else
    let ratioNeeded : ℚ := (originalSize : ℚ) / (targetSize : ℚ)
    if ratioNeeded < 2 then 0
    else if ratioNeeded < 4 then 1
    else if ratioNeeded < 8 then 2
    else 3

/-- Name of the rasterize ladder step at an index. -/
def stepName (idx : Nat) : String :=
  ((RASTER_LADDER.get? idx).map RasterStep.name).getD ""

/-- The indices the `for` loop of rasterize.ts lines 132-165 ranges over. -/
def ladderSegment (originalSize : Nat) (targetBytes : ℤ) : List Nat :=
  (List.range RASTER_LADDER.length).drop
    (estimateStartingStep (originalSize : ℤ) targetBytes)

/-- rasterize.ts lines 132-177: the rung loop, structurally identical to
the engine's. -/
def compressLoop (attempt : Nat → Option (List Nat)) (targetBytes : ℤ)
    (originalSize : Nat) :
    List Nat → Nat → List Nat → String → CompressionResult
  | [], bestSize, bestBytes, bestStepName =>
      ⟨true, some bestBytes, originalSize, bestSize, false, bestStepName, none⟩
  | idx :: rest, bestSize, bestBytes, bestStepName =>
      match attempt idx with
      | none =>
          compressLoop attempt targetBytes originalSize rest
            bestSize bestBytes bestStepName
      | some outBytes =>
          let resultSize := outBytes.length
          let bestSizeNext := if resultSize < bestSize then resultSize else bestSize
          let bestBytesNext := if resultSize < bestSize then outBytes else bestBytes
          let bestStepNext := if resultSize < bestSize then stepName idx else bestStepName
          if (resultSize : ℤ) ≤ targetBytes then
            ⟨true, some outBytes, originalSize, resultSize, true, stepName idx, none⟩
          else
            compressLoop attempt targetBytes originalSize rest
              bestSizeNext bestBytesNext bestStepNext

/-- rasterize.ts lines 104-178: `compressPdfRasterized`. -/
def compressPdfRasterized (inputBytes : List Nat) (targetMb : ℚ)
    (attempt : Nat → Option (List Nat)) : CompressionResult :=
  if (inputBytes.length : ℤ) ≤ targetBytesOf targetMb then
    ⟨true, some inputBytes, inputBytes.length, inputBytes.length, true,
      "none (already under target)", none⟩
  else
    compressLoop attempt (targetBytesOf targetMb) inputBytes.length
      (ladderSegment inputBytes.length (targetBytesOf targetMb))
      inputBytes.length inputBytes "none"

end Rasterize

/-- Consistency facts shared by every return path of both drivers: the
operation reports success with no error message, the sizes in the record
match the actual byte buffers, `targetReached` holds exactly when the
final size meets the target, and the final size never exceeds the
original. -/
def GoodResult (targetBytes : ℤ) (originalSize : Nat) (r : CompressionResult) : Prop :=
  r.success = true ∧
  r.errorMessage = none ∧
  r.originalSizeBytes = originalSize ∧
  (∃ ob, r.outputBytes = some ob ∧ r.finalSizeBytes = ob.length) ∧
  (r.targetReached = true ↔ (r.finalSizeBytes : ℤ) ≤ targetBytes) ∧
  r.finalSizeBytes ≤ originalSize

/-- The breakpoint table of the spec's §4.3 estimation policy, applied to
the exact size ratio with strict comparisons (spec wording for the
engine's estimator). -/
def engineBreakpointTable (ratio : ℚ) : Nat :=
  if ratio < 3/2 then 0
  else if ratio < 2 then 1
  else if ratio < 3 then 2
  else if ratio < 4 then 3
  else if ratio < 5 then 4
  else 5

/-- The breakpoint table the rasterize estimator actually implements
(rasterize.ts lines 29-36), applied to the exact size ratio. -/
def rasterBreakpointTable (ratio : ℚ) : Nat :=
  if ratio < 2 then 0
  else if ratio < 4 then 1
  else if ratio < 8 then 2
  else 3

/-! ### Loop lemmas for the engine driver -/

/-- Invariant of the engine's rung loop: entering with a best-so-far that
is consistent (size = length of bytes), strictly above the target, and no
larger than the original, the loop returns a `GoodResult` whose final size
is at most the incoming best size. -/
theorem Engine.compressLoop_good (attempt : Nat → Option (List Nat))
    (targetBytes : ℤ) (originalSize : Nat) :
    ∀ (l : List Nat) (bs : Nat) (bb : List Nat) (bn : String),
      bs = bb.length → targetBytes < (bs : ℤ) → bs ≤ originalSize →
      GoodResult targetBytes originalSize
        (Engine.compressLoop attempt targetBytes originalSize l bs bb bn) ∧
      (Engine.compressLoop attempt targetBytes originalSize l bs bb bn).finalSizeBytes ≤ bs := by
  intro l
  induction l with
  | nil =>
      intro bs bb bn hlen hgt hle
      have hR : Engine.compressLoop attempt targetBytes originalSize [] bs bb bn =
          ⟨true, some bb, originalSize, bs, false, bn, none⟩ := rfl
      rw [hR]
      exact ⟨⟨rfl, rfl, rfl, ⟨bb, rfl, hlen⟩,
        ⟨fun hc => absurd hc Bool.false_ne_true,
         fun hc => absurd hc (not_le.mpr hgt)⟩, hle⟩, le_refl bs⟩
  | cons idx rest ih =>
      intro bs bb bn hlen hgt hle
      cases h : attempt idx with
      | none =>
          simpa only [Engine.compressLoop, h] using ih bs bb bn hlen hgt hle
      | some out =>
          by_cases htar : ((out.length : ℤ)) ≤ targetBytes
          · have hlt' : out.length < bs := by
              exact_mod_cast lt_of_le_of_lt htar hgt
            have hle' : out.length ≤ originalSize := le_trans hlt'.le hle
            have hR : Engine.compressLoop attempt targetBytes originalSize
                (idx :: rest) bs bb bn =
                ⟨true, some out, originalSize, out.length, true,
                  Engine.stepName idx, none⟩ := by
              simp only [Engine.compressLoop, h, if_pos htar]
            rw [hR]
            exact ⟨⟨rfl, rfl, rfl, ⟨out, rfl, rfl⟩,
              ⟨fun _ => htar, fun _ => rfl⟩, hle'⟩, hlt'.le⟩
          · by_cases hlt : out.length < bs
            · have hR : Engine.compressLoop attempt targetBytes originalSize
                  (idx :: rest) bs bb bn =
                  Engine.compressLoop attempt targetBytes originalSize rest
                    out.length out (Engine.stepName idx) := by
                simp only [Engine.compressLoop, h, if_neg htar, if_pos hlt]
              rw [hR]
              have hrec := ih out.length out (Engine.stepName idx) rfl
                (lt_of_not_le htar) (le_trans hlt.le hle)
              exact ⟨hrec.1, le_trans hrec.2 hlt.le⟩
            · have hR : Engine.compressLoop attempt targetBytes originalSize
                  (idx :: rest) bs bb bn =
                  Engine.compressLoop attempt targetBytes originalSize rest
                    bs bb bn := by
                simp only [Engine.compressLoop, h, if_neg htar, if_neg hlt]
              rw [hR]
              exact ih bs bb bn hlen hgt hle

/-- When every rung on the list throws, the engine loop returns the
incoming best-so-far unchanged, exhausted. -/
theorem Engine.compressLoop_allFail (attempt : Nat → Option (List Nat))
    (targetBytes : ℤ) (originalSize : Nat) :
    ∀ (l : List Nat) (bs : Nat) (bb : List Nat) (bn : String),
      (∀ idx ∈ l, attempt idx = none) →
      Engine.compressLoop attempt targetBytes originalSize l bs bb bn =
        ⟨true, some bb, originalSize, bs, false, bn, none⟩ := by
  intro l
  induction l with
  | nil => intro bs bb bn _; rfl
  | cons idx rest ih =>
      intro bs bb bn hall
      have h : attempt idx = none := hall idx (List.mem_cons_self idx rest)
      have hrest : ∀ j ∈ rest, attempt j = none :=
        fun j hj => hall j (List.mem_cons_of_mem idx hj)
      calc Engine.compressLoop attempt targetBytes originalSize (idx :: rest) bs bb bn
          = Engine.compressLoop attempt targetBytes originalSize rest bs bb bn := by
            simp only [Engine.compressLoop, h]
        _ = ⟨true, some bb, originalSize, bs, false, bn, none⟩ := ih bs bb bn hrest

/-- When no rung on the list produces output strictly smaller than the
incoming best size (and that best size is above the target), the engine
loop returns the incoming best-so-far unchanged, exhausted. -/
theorem Engine.compressLoop_noImprove (attempt : Nat → Option (List Nat))
    (targetBytes : ℤ) (originalSize : Nat) :
    ∀ (l : List Nat) (bs : Nat) (bb : List Nat) (bn : String),
      targetBytes < (bs : ℤ) →
      (∀ idx ∈ l, ∀ out, attempt idx = some out → bs ≤ out.length) →
      Engine.compressLoop attempt targetBytes originalSize l bs bb bn =
        ⟨true, some bb, originalSize, bs, false, bn, none⟩ := by
  intro l
  induction l with
  | nil => intro bs bb bn _ _; rfl
  | cons idx rest ih =>
      intro bs bb bn hgt hall
      have hrest : ∀ j ∈ rest, ∀ out, attempt j = some out → bs ≤ out.length :=
        fun j hj => hall j (List.mem_cons_of_mem idx hj)
      cases h : attempt idx with
      | none =>
          calc Engine.compressLoop attempt targetBytes originalSize (idx :: rest) bs bb bn
              = Engine.compressLoop attempt targetBytes originalSize rest bs bb bn := by
                simp only [Engine.compressLoop, h]
            _ = ⟨true, some bb, originalSize, bs, false, bn, none⟩ :=
                ih bs bb bn hgt hrest
      | some out =>
          have hbig : bs ≤ out.length := hall idx (List.mem_cons_self idx rest) out h
          have htar : ¬ ((out.length : ℤ) ≤ targetBytes) := by
            have : (bs : ℤ) ≤ (out.length : ℤ) := by exact_mod_cast hbig
            exact not_le.mpr (lt_of_lt_of_le hgt this)
          have hlt : ¬ (out.length < bs) := not_lt.mpr hbig
          calc Engine.compressLoop attempt targetBytes originalSize (idx :: rest) bs bb bn
              = Engine.compressLoop attempt targetBytes originalSize rest bs bb bn := by
                simp only [Engine.compressLoop, h, if_neg htar, if_neg hlt]
            _ = ⟨true, some bb, originalSize, bs, false, bn, none⟩ :=
                ih bs bb bn hgt hrest

/-- When the index list splits as `pre ++ i0 :: post` with every rung of
`pre` non-qualifying (its output, if any, is strictly above the target)
and rung `i0` qualifying, the engine loop returns rung `i0`'s output with
`targetReached = true` — independently of `post`, of the rungs after
`i0`, and of the incoming best-so-far. -/
theorem Engine.compressLoop_firstQual (attempt : Nat → Option (List Nat))
    (targetBytes : ℤ) (originalSize : Nat) :
    ∀ (pre : List Nat) (i0 : Nat) (post : List Nat) (out0 : List Nat)
      (bs : Nat) (bb : List Nat) (bn : String),
      (∀ j ∈ pre, ∀ out, attempt j = some out → targetBytes < (out.length : ℤ)) →
      attempt i0 = some out0 →
      (out0.length : ℤ) ≤ targetBytes →
      Engine.compressLoop attempt targetBytes originalSize
          (pre ++ i0 :: post) bs bb bn =
        ⟨true, some out0, originalSize, out0.length, true,
          Engine.stepName i0, none⟩ := by
  intro pre
  induction pre with
  | nil =>
      intro i0 post out0 bs bb bn _ hq hq2
      simp only [List.nil_append, Engine.compressLoop, hq, if_pos hq2]
  | cons j pre' ih =>
      intro i0 post out0 bs bb bn hpre hq hq2
      have hpre' : ∀ k ∈ pre', ∀ out, attempt k = some out →
          targetBytes < (out.length : ℤ) :=
        fun k hk => hpre k (List.mem_cons_of_mem j hk)
      cases h : attempt j with
      | none =>
          calc Engine.compressLoop attempt targetBytes originalSize
                ((j :: pre') ++ i0 :: post) bs bb bn
              = Engine.compressLoop attempt targetBytes originalSize
                  (pre' ++ i0 :: post) bs bb bn := by
                simp only [List.cons_append, Engine.compressLoop, h, List.append_eq]
            _ = ⟨true, some out0, originalSize, out0.length, true,
                  Engine.stepName i0, none⟩ :=
                ih i0 post out0 bs bb bn hpre' hq hq2
      | some out =>
          have hbig : targetBytes < (out.length : ℤ) :=
            hpre j (List.mem_cons_self j pre') out h
          have htar : ¬ ((out.length : ℤ) ≤ targetBytes) := not_le.mpr hbig
          by_cases hlt : out.length < bs
          · calc Engine.compressLoop attempt targetBytes originalSize
                  ((j :: pre') ++ i0 :: post) bs bb bn
                = Engine.compressLoop attempt targetBytes originalSize
                    (pre' ++ i0 :: post) out.length out (Engine.stepName j) := by
                  simp only [List.cons_append, Engine.compressLoop, h,
                    List.append_eq, if_neg htar, if_pos hlt]
              _ = ⟨true, some out0, originalSize, out0.length, true,
                    Engine.stepName i0, none⟩ :=
                  ih i0 post out0 out.length out (Engine.stepName j) hpre' hq hq2
          · calc Engine.compressLoop attempt targetBytes originalSize
                  ((j :: pre') ++ i0 :: post) bs bb bn
                = Engine.compressLoop attempt targetBytes originalSize
                    (pre' ++ i0 :: post) bs bb bn := by
                  simp only [List.cons_append, Engine.compressLoop, h,
                    List.append_eq, if_neg htar, if_neg hlt]
              _ = ⟨true, some out0, originalSize, out0.length, true,
                    Engine.stepName i0, none⟩ :=
                  ih i0 post out0 bs bb bn hpre' hq hq2

/-- The engine's `compressPdf` always returns a `GoodResult`. -/
theorem Engine.compressPdf_good (inputBytes : List Nat) (targetMb : ℚ)
    (attempt : Nat → Option (List Nat)) :
    GoodResult (targetBytesOf targetMb) inputBytes.length
      (Engine.compressPdf inputBytes targetMb attempt) := by
  by_cases h : ((inputBytes.length : ℤ)) ≤ targetBytesOf targetMb
  · have hR : Engine.compressPdf inputBytes targetMb attempt =
        ⟨true, some inputBytes, inputBytes.length, inputBytes.length, true,
          "none (already under target)", none⟩ := by
      unfold Engine.compressPdf
      rw [if_pos h]
    rw [hR]
    exact ⟨rfl, rfl, rfl, ⟨inputBytes, rfl, rfl⟩,
      ⟨fun _ => h, fun _ => rfl⟩, le_refl _⟩
  · have hR : Engine.compressPdf inputBytes targetMb attempt =
        Engine.compressLoop attempt (targetBytesOf targetMb) inputBytes.length
          (Engine.ladderSegment inputBytes.length (targetBytesOf targetMb))
          inputBytes.length inputBytes "none" := by
      unfold Engine.compressPdf
      rw [if_neg h]
    rw [hR]
    exact (Engine.compressLoop_good attempt (targetBytesOf targetMb)
      inputBytes.length _ inputBytes.length inputBytes "none" rfl
      (lt_of_not_le h) (le_refl _)).1

/-! ### Loop lemmas for the rasterize driver -/

/-- Invariant of the rasterize rung loop, identical in content to
`Engine.compressLoop_good`. -/
theorem Rasterize.rasterLoop_good (attempt : Nat → Option (List Nat))
    (targetBytes : ℤ) (originalSize : Nat) :
    ∀ (l : List Nat) (bs : Nat) (bb : List Nat) (bn : String),
      bs = bb.length → targetBytes < (bs : ℤ) → bs ≤ originalSize →
      GoodResult targetBytes originalSize
        (Rasterize.compressLoop attempt targetBytes originalSize l bs bb bn) ∧
      (Rasterize.compressLoop attempt targetBytes originalSize l bs bb bn).finalSizeBytes ≤ bs := by
  intro l
  induction l with
  | nil =>
      intro bs bb bn hlen hgt hle
      have hR : Rasterize.compressLoop attempt targetBytes originalSize [] bs bb bn =
          ⟨true, some bb, originalSize, bs, false, bn, none⟩ := rfl
      rw [hR]
      exact ⟨⟨rfl, rfl, rfl, ⟨bb, rfl, hlen⟩,
        ⟨fun hc => absurd hc Bool.false_ne_true,
         fun hc => absurd hc (not_le.mpr hgt)⟩, hle⟩, le_refl bs⟩
  | cons idx rest ih =>
      intro bs bb bn hlen hgt hle
      cases h : attempt idx with
      | none =>
          simpa only [Rasterize.compressLoop, h] using ih bs bb bn hlen hgt hle
      | some out =>
          by_cases htar : ((out.length : ℤ)) ≤ targetBytes
          · have hlt' : out.length < bs := by
              exact_mod_cast lt_of_le_of_lt htar hgt
            have hle' : out.length ≤ originalSize := le_trans hlt'.le hle
            have hR : Rasterize.compressLoop attempt targetBytes originalSize
                (idx :: rest) bs bb bn =
                ⟨true, some out, originalSize, out.length, true,
                  Rasterize.stepName idx, none⟩ := by
              simp only [Rasterize.compressLoop, h, if_pos htar]
            rw [hR]
            exact ⟨⟨rfl, rfl, rfl, ⟨out, rfl, rfl⟩,
              ⟨fun _ => htar, fun _ => rfl⟩, hle'⟩, hlt'.le⟩
          · by_cases hlt : out.length < bs
            · have hR : Rasterize.compressLoop attempt targetBytes originalSize
                  (idx :: rest) bs bb bn =
                  Rasterize.compressLoop attempt targetBytes originalSize rest
                    out.length out (Rasterize.stepName idx) := by
                simp only [Rasterize.compressLoop, h, if_neg htar, if_pos hlt]
              rw [hR]
              have hrec := ih out.length out (Rasterize.stepName idx) rfl
                (lt_of_not_le htar) (le_trans hlt.le hle)
              exact ⟨hrec.1, le_trans hrec.2 hlt.le⟩
            · have hR : Rasterize.compressLoop attempt targetBytes originalSize
                  (idx :: rest) bs bb bn =
                  Rasterize.compressLoop attempt targetBytes originalSize rest
                    bs bb bn := by
                simp only [Rasterize.compressLoop, h, if_neg htar, if_neg hlt]
              rw [hR]
              exact ih bs bb bn hlen hgt hle

/-- The rasterize driver's `compressPdfRasterized` always returns a
`GoodResult`. -/
theorem Rasterize.compressPdfRasterized_good (inputBytes : List Nat)
    (targetMb : ℚ) (attempt : Nat → Option (List Nat)) :
    GoodResult (targetBytesOf targetMb) inputBytes.length
      (Rasterize.compressPdfRasterized inputBytes targetMb attempt) := by
  by_cases h : ((inputBytes.length : ℤ)) ≤ targetBytesOf targetMb
  · have hR : Rasterize.compressPdfRasterized inputBytes targetMb attempt =
        ⟨true, some inputBytes, inputBytes.length, inputBytes.length, true,
          "none (already under target)", none⟩ := by
      unfold Rasterize.compressPdfRasterized
      rw [if_pos h]
    rw [hR]
    exact ⟨rfl, rfl, rfl, ⟨inputBytes, rfl, rfl⟩,
      ⟨fun _ => h, fun _ => rfl⟩, le_refl _⟩
  · have hR : Rasterize.compressPdfRasterized inputBytes targetMb attempt =
        Rasterize.compressLoop attempt (targetBytesOf targetMb) inputBytes.length
          (Rasterize.ladderSegment inputBytes.length (targetBytesOf targetMb))
          inputBytes.length inputBytes "none" := by
      unfold Rasterize.compressPdfRasterized
      rw [if_neg h]
    rw [hR]
    exact (Rasterize.rasterLoop_good attempt (targetBytesOf targetMb)
      inputBytes.length _ inputBytes.length inputBytes "none" rfl
      (lt_of_not_le h) (le_refl _)).1

/-! ### Claims -/

/-- C1: when the original exceeds the target, the best-so-far tracker
starts at the original and is updated only on strict improvement, so the
returned `finalSizeBytes` never exceeds `originalSizeBytes`; and if no
tried rung produced output strictly smaller than the original, the
returned `outputBytes` is the input itself, `finalSizeBytes` equals
`originalSizeBytes`, and `stepUsed` is `"none"`. -/
theorem claim_C1_never_worse (inputBytes : List Nat) (targetMb : ℚ)
    (attempt : Nat → Option (List Nat))
    (hgt : targetBytesOf targetMb < (inputBytes.length : ℤ)) :
    (Engine.compressPdf inputBytes targetMb attempt).finalSizeBytes ≤
      (Engine.compressPdf inputBytes targetMb attempt).originalSizeBytes ∧
    ((∀ idx ∈ Engine.ladderSegment inputBytes.length (targetBytesOf targetMb),
        ∀ out, attempt idx = some out → inputBytes.length ≤ out.length) →
      (Engine.compressPdf inputBytes targetMb attempt).outputBytes =
        some inputBytes ∧
      (Engine.compressPdf inputBytes targetMb attempt).finalSizeBytes =
        (Engine.compressPdf inputBytes targetMb attempt).originalSizeBytes ∧
      (Engine.compressPdf inputBytes targetMb attempt).stepUsed = "none") := by
  have hns : ¬ ((inputBytes.length : ℤ) ≤ targetBytesOf targetMb) := not_le.mpr hgt
  have hR : Engine.compressPdf inputBytes targetMb attempt =
      Engine.compressLoop attempt (targetBytesOf targetMb) inputBytes.length
        (Engine.ladderSegment inputBytes.length (targetBytesOf targetMb))
        inputBytes.length inputBytes "none" := by
    unfold Engine.compressPdf
    rw [if_neg hns]
  constructor
  · obtain ⟨_, _, ho, _, _, hfin⟩ :=
      Engine.compressPdf_good inputBytes targetMb attempt
    rw [ho]
    exact hfin
  · intro hno
    rw [hR, Engine.compressLoop_noImprove attempt (targetBytesOf targetMb)
      inputBytes.length _ inputBytes.length inputBytes "none" hgt hno]
    exact ⟨rfl, rfl, rfl⟩

/-- Witness for C1 at a concrete input where every rung throws. -/
theorem claim_C1_never_worse_witness :
    (Engine.compressPdf [0, 0] 0 (fun _ => none)).outputBytes = some [0, 0] ∧
    (Engine.compressPdf [0, 0] 0 (fun _ => none)).stepUsed = "none" ∧
    (Engine.compressPdf [0, 0] 0 (fun _ => none)).finalSizeBytes ≤
      (Engine.compressPdf [0, 0] 0 (fun _ => none)).originalSizeBytes := by
  have h := claim_C1_never_worse [0, 0] 0 (fun _ => none)
    (by norm_num [targetBytesOf])
  have h2 := h.2 (fun idx _ out hout => Option.noConfusion hout)
  exact ⟨h2.1, h2.2.2, h.1⟩

/-- C2: whenever the input is already at or under the floored byte
target, `compressPdf` returns the input unchanged with
`targetReached = true` and `stepUsed = "none (already under target)"`,
for every rung oracle — so no rung is attempted. -/
theorem claim_C2_short_circuit (inputBytes : List Nat) (targetMb : ℚ)
    (attempt : Nat → Option (List Nat))
    (h : (inputBytes.length : ℤ) ≤ targetBytesOf targetMb) :
    Engine.compressPdf inputBytes targetMb attempt =
      ⟨true, some inputBytes, inputBytes.length, inputBytes.length, true,
        "none (already under target)", none⟩ := by
  unfold Engine.compressPdf
  rw [if_pos h]

/-- Witness for C2 at a one-byte input with a 1 MB target. -/
theorem claim_C2_short_circuit_witness :
    Engine.compressPdf [0] 1 (fun _ => none) =
      ⟨true, some [0], 1, 1, true, "none (already under target)", none⟩ :=
  claim_C2_short_circuit [0] 1 (fun _ => none) (by norm_num [targetBytesOf])

/-- C3: the search stops at the first rung (in ladder order from the
estimated start) whose output meets the target: if the tried segment
splits as `pre ++ i0 :: post` with every rung of `pre` non-qualifying and
rung `i0` qualifying, the result is rung `i0`'s output with
`targetReached = true` and `stepUsed` naming rung `i0`; moreover the
result does not depend on the oracle's values after `i0`, so no rung is
tried after one has met the target. -/
theorem claim_C3_early_stop (inputBytes : List Nat) (targetMb : ℚ)
    (attempt : Nat → Option (List Nat)) (pre post : List Nat) (i0 : Nat)
    (out0 : List Nat)
    (hgt : targetBytesOf targetMb < (inputBytes.length : ℤ))
    (hseg : Engine.ladderSegment inputBytes.length (targetBytesOf targetMb) =
      pre ++ i0 :: post)
    (hpre : ∀ j ∈ pre, ∀ out, attempt j = some out →
      targetBytesOf targetMb < (out.length : ℤ))
    (hq : attempt i0 = some out0)
    (hq2 : (out0.length : ℤ) ≤ targetBytesOf targetMb) :
    Engine.compressPdf inputBytes targetMb attempt =
      ⟨true, some out0, inputBytes.length, out0.length, true,
        Engine.stepName i0, none⟩ ∧
    ∀ attempt' : Nat → Option (List Nat),
      (∀ j ∈ pre, attempt' j = attempt j) → attempt' i0 = attempt i0 →
      Engine.compressPdf inputBytes targetMb attempt' =
        Engine.compressPdf inputBytes targetMb attempt := by
  have hns : ¬ ((inputBytes.length : ℤ) ≤ targetBytesOf targetMb) := not_le.mpr hgt
  have main : ∀ a : Nat → Option (List Nat),
      (∀ j ∈ pre, ∀ out, a j = some out →
        targetBytesOf targetMb < (out.length : ℤ)) →
      a i0 = some out0 →
      Engine.compressPdf inputBytes targetMb a =
        ⟨true, some out0, inputBytes.length, out0.length, true,
          Engine.stepName i0, none⟩ := by
    intro a hp ha
    unfold Engine.compressPdf
    rw [if_neg hns, hseg]
    exact Engine.compressLoop_firstQual a (targetBytesOf targetMb)
      inputBytes.length pre i0 post out0 inputBytes.length inputBytes "none"
      hp ha hq2
  refine ⟨main attempt hpre hq, ?_⟩
  intro attempt' hagree hagree0
  rw [main attempt'
    (fun j hj out hout => hpre j hj out ((hagree j hj).symm.trans hout))
    (hagree0.trans hq), main attempt hpre hq]

/-- Witness for C3: a 3-byte input with a 2-byte target starts at rung 1
("moderate"), which immediately qualifies. -/
theorem claim_C3_early_stop_witness :
    Engine.compressPdf [5, 5, 5] (2/(1024*1024))
      (fun idx => if idx = 1 then some [7, 7] else none) =
      ⟨true, some [7, 7], 3, 2, true, "moderate", none⟩ := by
  have h := claim_C3_early_stop [5, 5, 5] (2/(1024*1024))
    (fun idx => if idx = 1 then some [7, 7] else none) [] [2, 3, 4, 5] 1 [7, 7]
    (by norm_num [targetBytesOf])
    (by norm_num [Engine.ladderSegment, Engine.estimateStartingStep,
      targetBytesOf, Engine.COMPRESSION_LADDER, List.range_succ])
    (fun j hj => absurd hj (List.not_mem_nil j))
    (by norm_num)
    (by norm_num [targetBytesOf])
  exact h.1.trans (by norm_num [Engine.stepName, Engine.COMPRESSION_LADDER])

/-- C4: for a positive target strictly below the original size, the
engine's estimator equals the spec's breakpoint table applied to the
exact ratio; for a zero target (infinite ratio) it returns the last rung
index 5; and on the literal scenario (50,000,000 bytes, 31,457,280-byte
target) the ratio lies strictly between 1.57 and 1.6, the start index is
1, and ladder entry 1 is "moderate" with maxDimension 1600 and quality
0.75. -/
theorem claim_C4_estimator_breakpoints :
    (∀ originalSize targetSize : ℤ,
      targetSize < originalSize → 0 < targetSize →
      Engine.estimateStartingStep originalSize targetSize =
        engineBreakpointTable ((originalSize : ℚ) / (targetSize : ℚ))) ∧
    (∀ originalSize : ℤ, 0 < originalSize →
      Engine.estimateStartingStep originalSize 0 = 5) ∧
    Engine.estimateStartingStep 50000000 31457280 = 1 ∧
    Engine.COMPRESSION_LADDER.get? 1 = some ⟨"moderate", 1600, 75/100⟩ ∧
    (157/100 : ℚ) < (50000000 : ℚ) / 31457280 ∧
    ((50000000 : ℚ) / 31457280) < 8/5 := by
  refine ⟨?_, ?_, ?_, rfl, by norm_num, by norm_num⟩
  · intro o t h1 h2
    unfold Engine.estimateStartingStep engineBreakpointTable
    rw [if_neg (not_le.mpr h1), if_neg h2.ne']
  · intro o h
    unfold Engine.estimateStartingStep
    rw [if_neg (not_le.mpr h), if_pos rfl]
  · norm_num [Engine.estimateStartingStep]

/-- Witness for C4 at the literal scenario inputs and a zero target. -/
theorem claim_C4_estimator_breakpoints_witness :
    Engine.estimateStartingStep 50000000 31457280 =
      engineBreakpointTable ((50000000 : ℚ) / 31457280) ∧
    Engine.estimateStartingStep 7 0 = 5 :=
  ⟨claim_C4_estimator_breakpoints.1 50000000 31457280 (by norm_num) (by norm_num),
   claim_C4_estimator_breakpoints.2.1 7 (by norm_num)⟩

/-- C5 (counterexample): on an input no rung can parse (every rung
throws) with the target below the original, `compressPdf` still returns
`success = true` with no `errorMessage` — refuting the claim that a total
failure is surfaced as `success = false` with `errorMessage` set. -/
theorem claim_C5_counterexample :
    (Engine.compressPdf [0, 0] 0 (fun _ => none)).success = true ∧
    (Engine.compressPdf [0, 0] 0 (fun _ => none)).errorMessage = none := by
  norm_num [Engine.compressPdf, Engine.compressLoop, Engine.ladderSegment,
    Engine.estimateStartingStep, targetBytesOf, Engine.COMPRESSION_LADDER,
    List.range_succ]

/-- C5 (amended): a total failure — every rung's parse fails — is not
surfaced as an error by `compressPdf`: the result has `success = true`,
no `errorMessage`, `outputBytes` identical to the input (the best-so-far
never moved off the original), and `targetReached = false`. -/
theorem claim_C5_total_failure (inputBytes : List Nat) (targetMb : ℚ)
    (attempt : Nat → Option (List Nat))
    (hgt : targetBytesOf targetMb < (inputBytes.length : ℤ))
    (hfail : ∀ idx, attempt idx = none) :
    (Engine.compressPdf inputBytes targetMb attempt).success = true ∧
    (Engine.compressPdf inputBytes targetMb attempt).errorMessage = none ∧
    (Engine.compressPdf inputBytes targetMb attempt).outputBytes =
      some inputBytes ∧
    (Engine.compressPdf inputBytes targetMb attempt).targetReached = false := by
  have hR : Engine.compressPdf inputBytes targetMb attempt =
      ⟨true, some inputBytes, inputBytes.length, inputBytes.length, false,
        "none", none⟩ := by
    unfold Engine.compressPdf
    rw [if_neg (not_le.mpr hgt)]
    exact Engine.compressLoop_allFail attempt (targetBytesOf targetMb)
      inputBytes.length _ inputBytes.length inputBytes "none"
      (fun idx _ => hfail idx)
  rw [hR]
  exact ⟨rfl, rfl, rfl, rfl⟩

/-- Witness for the amended C5 at a concrete all-throwing input. -/
theorem claim_C5_total_failure_witness :
    (Engine.compressPdf [7] 0 (fun _ => none)).success = true ∧
    (Engine.compressPdf [7] 0 (fun _ => none)).targetReached = false := by
  have h := claim_C5_total_failure [7] 0 (fun _ => none)
    (by norm_num [targetBytesOf]) (fun _ => rfl)
  exact ⟨h.1, h.2.2.2⟩

/-- C6 (counterexample): the engine's and the rasterizer's
`estimateStartingStep` are not extensionally equal, even below both
ladder lengths: at original size 3 and target 2 (ratio exactly 1.5) the
engine starts at rung 1 while the rasterizer starts at rung 0. -/
theorem claim_C6_counterexample :
    Engine.estimateStartingStep 3 2 = 1 ∧
    Rasterize.estimateStartingStep 3 2 = 0 ∧
    Engine.estimateStartingStep 3 2 ≠ Rasterize.estimateStartingStep 3 2 := by
  norm_num [Engine.estimateStartingStep, Rasterize.estimateStartingStep]

/-- C6 (amended): the rasterize fallback uses the same ratio-breakpoint
shape of estimation but its own table — ratio < 2 → 0, < 4 → 1, < 8 → 2,
else → 3 (its last rung) — not the engine's table. -/
theorem claim_C6_raster_estimator :
    (∀ originalSize targetSize : ℤ,
      targetSize < originalSize → 0 < targetSize →
      Rasterize.estimateStartingStep originalSize targetSize =
        rasterBreakpointTable ((originalSize : ℚ) / (targetSize : ℚ))) ∧
    (∀ originalSize : ℤ, 0 < originalSize →
      Rasterize.estimateStartingStep originalSize 0 = 3) := by
  constructor
  · intro o t h1 h2
    unfold Rasterize.estimateStartingStep rasterBreakpointTable
    rw [if_neg (not_le.mpr h1), if_neg h2.ne']
  · intro o h
    unfold Rasterize.estimateStartingStep
    rw [if_neg (not_le.mpr h), if_pos rfl]

/-- Witness for the amended C6. -/
theorem claim_C6_raster_estimator_witness :
    Rasterize.estimateStartingStep 9 2 =
      rasterBreakpointTable ((9 : ℚ) / 2) ∧
    Rasterize.estimateStartingStep 9 0 = 3 :=
  ⟨(claim_C6_raster_estimator).1 9 2 (by norm_num) (by norm_num),
   (claim_C6_raster_estimator).2 9 (by norm_num)⟩

/-- C7: both ladders are monotonically aggressive — along
`COMPRESSION_LADDER`, `maxDimension` and `quality` never increase, and
along `RASTER_LADDER`, `scale` and `quality` never increase. -/
theorem claim_C7_monotonic_ladders :
    List.Chain'
      (fun s1 s2 => s2.maxDimension ≤ s1.maxDimension ∧ s2.quality ≤ s1.quality)
      Engine.COMPRESSION_LADDER ∧
    List.Chain'
      (fun s1 s2 => s2.scale ≤ s1.scale ∧ s2.quality ≤ s1.quality)
      Rasterize.RASTER_LADDER := by
  constructor <;>
    norm_num [Engine.COMPRESSION_LADDER, Rasterize.RASTER_LADDER,
      List.chain'_cons, List.chain'_singleton]

/-- C8: for both drivers, `targetReached = true` exactly when the final
size is at most `floor(targetMb * 1024 * 1024)`. -/
theorem claim_C8_targetReached_iff (inputBytes : List Nat) (targetMb : ℚ)
    (attempt : Nat → Option (List Nat)) :
    ((Engine.compressPdf inputBytes targetMb attempt).targetReached = true ↔
      ((Engine.compressPdf inputBytes targetMb attempt).finalSizeBytes : ℤ) ≤
        targetBytesOf targetMb) ∧
    ((Rasterize.compressPdfRasterized inputBytes targetMb attempt).targetReached
        = true ↔
      ((Rasterize.compressPdfRasterized inputBytes targetMb
          attempt).finalSizeBytes : ℤ) ≤ targetBytesOf targetMb) :=
  ⟨(Engine.compressPdf_good inputBytes targetMb attempt).2.2.2.2.1,
   (Rasterize.compressPdfRasterized_good inputBytes targetMb attempt).2.2.2.2.1⟩

/-- C9: on every return path of both drivers, the result is internally
consistent — `outputBytes` is non-null, `finalSizeBytes` is its length,
and `originalSizeBytes` is the input length. -/
theorem claim_C9_internal_consistency (inputBytes : List Nat) (targetMb : ℚ)
    (attempt : Nat → Option (List Nat)) :
    (∃ ob, (Engine.compressPdf inputBytes targetMb attempt).outputBytes =
        some ob ∧
      (Engine.compressPdf inputBytes targetMb attempt).finalSizeBytes =
        ob.length) ∧
    (Engine.compressPdf inputBytes targetMb attempt).originalSizeBytes =
      inputBytes.length ∧
    (∃ ob, (Rasterize.compressPdfRasterized inputBytes targetMb
        attempt).outputBytes = some ob ∧
      (Rasterize.compressPdfRasterized inputBytes targetMb
        attempt).finalSizeBytes = ob.length) ∧
    (Rasterize.compressPdfRasterized inputBytes targetMb
      attempt).originalSizeBytes = inputBytes.length :=
  ⟨(Engine.compressPdf_good inputBytes targetMb attempt).2.2.2.1,
   (Engine.compressPdf_good inputBytes targetMb attempt).2.2.1,
   (Rasterize.compressPdfRasterized_good inputBytes targetMb attempt).2.2.2.1,
   (Rasterize.compressPdfRasterized_good inputBytes targetMb attempt).2.2.1⟩

/-- C10: `compressPdf` never reports failure — `success = true` and no
`errorMessage` on every run — and when every rung throws (with the
original above the target) it returns the input bytes with
`targetReached = false` and `stepUsed = "none"`. -/
theorem claim_C10_never_fails :
    (∀ (inputBytes : List Nat) (targetMb : ℚ)
        (attempt : Nat → Option (List Nat)),
      (Engine.compressPdf inputBytes targetMb attempt).success = true ∧
      (Engine.compressPdf inputBytes targetMb attempt).errorMessage = none) ∧
    (∀ (inputBytes : List Nat) (targetMb : ℚ)
        (attempt : Nat → Option (List Nat)),
      targetBytesOf targetMb < (inputBytes.length : ℤ) →
      (∀ idx, attempt idx = none) →
      Engine.compressPdf inputBytes targetMb attempt =
        ⟨true, some inputBytes, inputBytes.length, inputBytes.length, false,
          "none", none⟩) := by
  constructor
  · intro i t a
    exact ⟨(Engine.compressPdf_good i t a).1, (Engine.compressPdf_good i t a).2.1⟩
  · intro i t a hgt hall
    unfold Engine.compressPdf
    rw [if_neg (not_le.mpr hgt)]
    exact Engine.compressLoop_allFail a (targetBytesOf t) i.length _
      i.length i "none" (fun idx _ => hall idx)

/-- Witness for C10 at a concrete all-throwing input. -/
theorem claim_C10_never_fails_witness :
    Engine.compressPdf [3] 0 (fun _ => none) =
      ⟨true, some [3], 1, 1, false, "none", none⟩ :=
  claim_C10_never_fails.2 [3] 0 (fun _ => none)
    (by norm_num [targetBytesOf]) (fun _ => rfl)

end PdfCompressor
